import Mathlib

/-!
# Verification of the Bybit P2P sync service

Shallow embedding of the synchronization / enrichment pipeline of the
repository (src/bybit.ts, src/sync-service.ts and the service revisions in
src/unnamed/part_000) together with proofs about the claims of its
natural-language specification.

Conventions of the embedding:
* JS numbers that only ever hold parsed decimals are modelled as `Option ℚ`,
  with `none` standing for `NaN` (the result of `parseFloat` on a string with
  no numeric prefix); arithmetic propagates `none` like `NaN`.
* JS strings that can be `undefined` are modelled as `Option String`
  (`none` = absent); JS truthiness of such a field is "`some s` with `s ≠ ""`".
* Network and database effects are passed in explicitly: a fetch is a value
  describing its outcome, the store is a list of rows threaded through the
  functions, and a `try`/`catch` block is modelled by matching on an
  `Except`-valued outcome of its body.
-/

namespace Bybit

/-! ## JS primitives used by the source -/

/-- JS truthiness of an optional string field: `undefined`, `null` and `""`
are falsy. -/

def truthy : Option String → Bool
  | none => false
  | some s => s ≠ ""

/-- `a || b` on optional string fields. -/

def jsOr (a b : Option String) : Option String :=
  if truthy a then a else b

/-- `x || "d"` with a string literal default (always yields a string). -/

def jsOrD (a : Option String) (d : String) : String :=
  if truthy a then a.getD d else d

/-- Digits `0`-`9`, as tested by the regex class `\d` and by `parseFloat`. -/

def isDigitCh (c : Char) : Bool := '0' ≤ c ∧ c ≤ '9'

/-- The whitespace characters recognised by the JS regex class `\s` that can
occur in the chat strings handled here (ASCII whitespace and NBSP). -/

def isJsSpace (c : Char) : Bool :=
  c = ' ' ∨ c = '\t' ∨ c = '\n' ∨ c = '\r' ∨ c = '\x0b' ∨ c = '\x0c' ∨ c = ' '

/-- Numeric value of a digit character. -/

def digitVal (c : Char) : ℕ := c.toNat - '0'.toNat

/-- Value of a digit string (big-endian). -/

def digitsVal : List Char → ℕ
  | [] => 0
  | c :: cs => digitVal c * 10 ^ cs.length + digitsVal cs

/-- Value of a fraction part: `digits` after the decimal point. -/

def fracVal (cs : List Char) : ℚ :=
  (digitsVal cs : ℚ) / (10 : ℚ) ^ cs.length

/-- The character-level result of scanning a decimal string: sign, integer
digits and fraction digits. -/

structure DecParse where
  neg : Bool
  intDigits : List Char
  fracDigits : List Char
  deriving Repr, DecidableEq

/-- Character-level part of JS `parseFloat` on the decimal strings this
service feeds it: skip leading whitespace, optional sign, then the longest
prefix of the form `digits[.digits]`; `none` when no digit is found.
Exponents and `Infinity` never occur in the exchange's numeric fields and
are not modelled. -/

def parseDecimalChars (s : String) : Option DecParse :=
  let cs0 := s.data.dropWhile isJsSpace
  let signed : Bool × List Char :=
    match cs0 with
    | '-' :: rest => (true, rest)
    | '+' :: rest => (false, rest)
    | _ => (false, cs0)
  let cs := signed.2
  let intPart := cs.takeWhile isDigitCh
  let rest := cs.dropWhile isDigitCh
  let fracPart :=
    match rest with
    | '.' :: tail => tail.takeWhile isDigitCh
    | _ => []
  if intPart = [] ∧ fracPart = [] then none
  else some ⟨signed.1, intPart, fracPart⟩

/-- Rational value of a scanned decimal. -/

def decValue (p : DecParse) : ℚ :=
  (if p.neg then -1 else 1) * ((digitsVal p.intDigits : ℚ) + fracVal p.fracDigits)

/-- `parseFloat`, modelled over `Option ℚ` (`none` = `NaN`). -/

def jsParseFloat (s : String) : Option ℚ :=
  (parseDecimalChars s).map decValue

/-- `parseFloat(field || '0')`: the service's idiom for optional numeric
fields. -/

def parseFloatOrZero (field : Option String) : Option ℚ :=
  jsParseFloat (jsOrD field "0")

/-- JS multiplication on the `Option ℚ` model: `NaN` propagates. -/

def mulNum : Option ℚ → Option ℚ → Option ℚ
  | some a, some b => some (a * b)
  | _, _ => none

/-! ## Raw exchange trade records -/

/-- A raw P2P order as returned by the exchange API (the fields the service
reads).  String-typed wire fields are optional (`none` = absent). -/

structure RawTrade where
  id : Option String := none
  orderId : Option String := none
  side : Int := 0
  status : Int := 0
  createDate : Option String := none
  amount : Option String := none
  price : Option String := none
  notifyTokenQuantity : Option String := none
  targetNickName : Option String := none
  tokenId : Option String := none
  deriving Repr, DecidableEq

/-! ## Status normalization (C4) -/

/-- `exportToMatchingFormat` (src/bybit.ts:426-441): the `switch` mapping a
raw status code to readable text, defaulting to `"Unknown"`. -/

def exportStatusText (code : Int) : String :=
  if code = 5 then "Waiting for chain"
  else if code = 10 then "Waiting for payment"
  else if code = 20 then "Waiting for release"
  else if code = 30 then "Appealing"
  else if code = 40 then "Cancelled"
  else if code = 50 then "Completed"
  else if code = 60 then "Paying"
  else if code = 70 then "Payment failed"
  else if code = 80 then "Exception cancelled"
  else if code = 90 then "Waiting selection"
  else if code = 100 then "Objecting"
  else if code = 110 then "Waiting objection"
  else "Unknown"

/-- `transformCabinetTransactionToDbFormat` (part_000:1282-1291): the cabinet
normalizer's `switch` on the status code. -/

def cabinetStatusText (code : Int) : String :=
  if code = 40 then "CANCELED"
  else if code = 50 then "COMPLETED"
  else if code = 30 then "COMPLETED"
  else if code = 20 then "PENDING"
  else if code = 0 then "PENDING"
  else "UNKNOWN"

/-- JS `parseInt` on the service's date strings: skip leading whitespace,
optional sign, then the longest digit prefix; `none` models `NaN`. -/

def jsParseInt (s : String) : Option Int :=
  let cs0 := s.data.dropWhile isJsSpace
  let signed : Int × List Char :=
    match cs0 with
    | '-' :: rest => (-1, rest)
    | '+' :: rest => (1, rest)
    | _ => (1, cs0)
  let intPart := signed.2.takeWhile isDigitCh
  if intPart = [] then none
  else some (signed.1 * (digitsVal intPart : Int))

/-! ## Persisted transaction rows and the two normalizers (C5) -/

/-- A stored `bybitTransaction` row (user path), with the fields the sync
writes.  `dateTime` is epoch milliseconds; `now` is threaded in for the
wall-clock fallback. -/

structure UserTxRow where
  orderNo : String
  counterparty : String
  status : String
  userId : Int
  amount : Option ℚ
  asset : String
  dateTime : Int
  totalPrice : Option ℚ
  type : String
  unitPrice : Option ℚ
  deriving Repr, DecidableEq

/-- A stored `bybitTransactionFromCabinet` row (cabinet path).  `orderNo` is
`transaction.id` verbatim and hence optional in the wire model. -/

structure CabTxRow where
  orderNo : Option String
  counterparty : String
  status : String
  amount : Option ℚ
  asset : String
  dateTime : Int
  totalPrice : Option ℚ
  type : String
  unitPrice : Option ℚ
  cabinetId : Int
  processed : Bool
  extractedPhones : List String
  lastAttemptError : Option String
  deriving Repr, DecidableEq

/-- `transaction.id || transaction.orderId || ''` (sync-service.ts:280). -/

def userOrderNo (tx : RawTrade) : String :=
  jsOrD (jsOr tx.id tx.orderId) ""

/-- User-path date handling (sync-service.ts:302-316):
`parseInt(createDate || '0')`, kept only when strictly positive, otherwise
the current wall-clock time. -/

def userDateTime (now : Int) (tx : RawTrade) : Int :=
  match jsParseInt (jsOrD tx.createDate "0") with
  | some t => if 0 < t then t else now
  | none => now

/-- Cabinet-path date handling (part_000:1295-1307):
`parseInt(createDate || '0', 10)`, replaced by the current time when `NaN`
or exactly `0` (negative values are kept, unlike the user path). -/

def cabinetDateTime (now : Int) (tx : RawTrade) : Int :=
  match jsParseInt (jsOrD tx.createDate "0") with
  | some t => if t = 0 then now else t
  | none => now

/-- The user-path normalizer: the record assembled and persisted by
`syncUserTransactions` (sync-service.ts:302-354) for a trade that passed the
Sell/Completed filter. -/

def mkUserRow (uid : Int) (now : Int) (tx : RawTrade) : UserTxRow :=
  { orderNo := userOrderNo tx
    counterparty := jsOrD tx.targetNickName "Unknown"
    status := "Completed"
    userId := uid
    amount := parseFloatOrZero tx.amount
    asset := jsOrD tx.tokenId "USDT"
    dateTime := userDateTime now tx
    totalPrice := mulNum (parseFloatOrZero tx.amount) (parseFloatOrZero tx.price)
    type := "Sell"
    unitPrice := parseFloatOrZero tx.price }

/-- `transformCabinetTransactionToDbFormat` (part_000:1278-1331): the cabinet
normalizer.  Note `totalPrice` is `parseFloat(transaction.amount || '0')`
(the upstream fiat-amount field) and `amount` is the upstream
`notifyTokenQuantity`. -/

def transformCabinetTransactionToDbFormat (tx : RawTrade) (cabinetId : Int)
    (now : Int) : CabTxRow :=
  { orderNo := tx.id
    counterparty := jsOrD tx.targetNickName "Unknown"
    status := cabinetStatusText tx.status
    amount := parseFloatOrZero tx.notifyTokenQuantity
    asset := jsOrD tx.tokenId "Unknown"
    dateTime := cabinetDateTime now tx
    totalPrice := parseFloatOrZero tx.amount
    type := if tx.side = 0 then "BUY" else "SELL"
    unitPrice := parseFloatOrZero tx.price
    cabinetId := cabinetId
    processed := false
    extractedPhones := []
    lastAttemptError := none }

/-! ## The two-strategy fetch fallback (C2) -/

/-- Outcome of one `getAndProcessAllOrders` page call, as observed by the
sync loop: the call threw (`pageError`), returned `{success:false}`, or
returned a processed transaction list. -/

inductive PageResult where
  | thrown (msg : String)
  | failure (msg : String)
  | success (txs : List RawTrade)
  deriving Repr, DecidableEq

/-- The page loop continues past a page exactly when the call succeeded and
the page is non-empty (sync-service.ts:212). -/

def pageGood : PageResult → Bool
  | .success txs => !txs.isEmpty
  | _ => false

/-- One strategy's pagination loop (sync-service.ts:200-227): from `page`,
with `fuel` pages of the cap remaining, accumulate successful non-empty
pages into `acc`, set `has` on the first one, and stop at the first page
that errs or is empty.  Returns (accumulated list, hasSuccess, pages
requested). -/

def runStrategyAux (fetch : ℕ → PageResult) :
    ℕ → ℕ → List RawTrade → Bool → List RawTrade × Bool × ℕ
  | 0, _, acc, has => (acc, has, 0)
  | fuel + 1, page, acc, has =>
    match fetch page with
    | .success txs =>
      if txs.isEmpty then (acc, has, 1)
      else
        let r := runStrategyAux fetch fuel (page + 1) (acc ++ txs) true
        (r.1, r.2.1, r.2.2 + 1)
    | _ => (acc, has, 1)

/-- A strategy run: pages 1..10. -/

def runStrategy (fetch : ℕ → PageResult) : List RawTrade × Bool × ℕ :=
  runStrategyAux fetch 10 1 [] false

/-- Result of the two-strategy fallback. -/

structure FetchOutcome where
  transactions : List RawTrade
  hasSuccess : Bool
  strategy2Invoked : Bool
  pages1 : ℕ
  pages2 : ℕ
  deriving Repr

/-- The fallback chain of `syncUserTransactions` (sync-service.ts:197-253):
strategy 1 (time-windowed) runs first; only when it set no success flag does
strategy 2 (unwindowed) run, continuing to accumulate into the same list. -/

def runFallback (f1 f2 : ℕ → PageResult) : FetchOutcome :=
  let r1 := runStrategy f1
  if r1.2.1 then ⟨r1.1, r1.2.1, false, r1.2.2, 0⟩
  else
    let r2 := runStrategyAux f2 10 1 r1.1 r1.2.1
    ⟨r2.1, r2.2.1, true, r1.2.2, r2.2.2⟩

/-! ## Persisting fetched trades (C1, C8, C9) -/

/-- The user-path persistence filter (sync-service.ts:274): a trade is kept
only when `side === 1` (Sell) and `status === 50` (Completed). -/

def userKeep (tx : RawTrade) : Bool :=
  tx.side == 1 && tx.status == 50

/-- `prisma.bybitTransaction.findFirst({where: {orderNo, userId}})`
(sync-service.ts:289-294). -/

def findUserTx (store : List UserTxRow) (ono : String) (uid : Int) :
    Option UserTxRow :=
  store.find? (fun r => r.orderNo == ono && r.userId == uid)

/-- The user-path save loop (sync-service.ts:271-359): for each fetched
trade, skip unless Sell/Completed, skip on empty orderNo, skip when a row
with the same (orderNo, userId) exists, otherwise insert the normalized row
and count it.  (Per-record insert failures are caught in the source and only
logged; inserts are modelled as succeeding.) -/

def userSaveLoop (uid now : Int) :
    List RawTrade → List UserTxRow → List UserTxRow × ℕ
  | [], store => (store, 0)
  | tx :: rest, store =>
    if userKeep tx then
      if userOrderNo tx = "" then userSaveLoop uid now rest store
      else if (findUserTx store (userOrderNo tx) uid).isSome then
        userSaveLoop uid now rest store
      else
        let r := userSaveLoop uid now rest (store ++ [mkUserRow uid now tx])
        (r.1, r.2 + 1)
    else userSaveLoop uid now rest store

/-- The cabinet-path persistence filter (part_000:1214):
`transactions.filter(tx => tx.status === 50).filter(tx => tx.side === 1)`. -/

def cabFilter (txs : List RawTrade) : List RawTrade :=
  (txs.filter (fun tx => tx.status == 50)).filter (fun tx => tx.side == 1)

/-- `prisma.bybitTransactionFromCabinet.findUnique({where: {orderNo}})`
(part_000:1223-1225): the lookup is keyed on `orderNo` alone. -/

def findCabTx (store : List CabTxRow) (ono : Option String) : Option CabTxRow :=
  store.find? (fun r => r.orderNo == ono)

/-- The cabinet-path save loop (part_000:1218-1246): for each (pre-filtered)
trade, look up by `orderNo` alone; insert the transformed record when
absent, update the existing row's status when it differs, otherwise leave
the store unchanged.  (The source updates by the found row's primary id; under
orderNo-uniqueness of the store that row is exactly the one whose `orderNo`
matches, which is how the update is expressed here.) -/

def cabinetSaveLoop (cabId now : Int) :
    List RawTrade → List CabTxRow → List CabTxRow × ℕ
  | [], store => (store, 0)
  | tx :: rest, store =>
    let dbRecord := transformCabinetTransactionToDbFormat tx cabId now
    match findCabTx store dbRecord.orderNo with
    | none =>
      let r := cabinetSaveLoop cabId now rest (store ++ [dbRecord])
      (r.1, r.2 + 1)
    | some existing =>
      if existing.status ≠ dbRecord.status then
        cabinetSaveLoop cabId now rest
          (store.map fun r =>
            if r.orderNo == dbRecord.orderNo then { r with status := dbRecord.status }
            else r)
      else cabinetSaveLoop cabId now rest store

/-- No two user rows share the same (orderNo, userId) key. -/

def UserKeyUnique (store : List UserTxRow) : Prop :=
  store.Pairwise (fun a b => ¬(a.orderNo = b.orderNo ∧ a.userId = b.userId))

/-- No two cabinet rows share the same orderNo. -/

def CabKeyUnique (store : List CabTxRow) : Prop :=
  store.Pairwise (fun a b => a.orderNo ≠ b.orderNo)

/-- The per-user sync status strings (sync-service.ts:362, 258, 366): the
success form carries the count of newly inserted rows. -/

def successStatus (n : ℕ) : String :=
  "Успешно. Сохранено " ++ toString n ++ " новых транзакций"

/-- Status written when both strategies found nothing. -/

def noNewStatus : String := "Новых транзакций не найдено"

/-- Status written by the outer catch. -/

def errorStatus (e : String) : String := "Ошибка: " ++ e

/-- The body of `syncUserTransactions`' outer `try` as an explicit outcome:
either it threw somewhere (`thrown`), or the two fetch strategies ran with
the given page oracles. -/

inductive SyncBody where
  | thrown (e : String)
  | fetched (f1 f2 : ℕ → PageResult)

/-- `syncUserTransactions` (sync-service.ts:171-368): early return without
any status write when the credentials are falsy; otherwise exactly one
status write — the outer-catch error form when the body threw, the
no-new-data form when no strategy succeeded (or the accumulated list is
empty), and otherwise the success form counting the rows the save loop
inserted.  Returns the updated store and the list of status writes. -/

def syncUserTransactions (uid now : Int) (token secret : Option String)
    (body : SyncBody) (store : List UserTxRow) : List UserTxRow × List String :=
  if !(truthy token && truthy secret) then (store, [])
  else
    match body with
    | .thrown e => (store, [errorStatus e])
    | .fetched f1 f2 =>
      let o := runFallback f1 f2
      if !o.hasSuccess then (store, [noNewStatus])
      else if o.transactions.isEmpty then (store, [noNewStatus])
      else
        let r := userSaveLoop uid now o.transactions store
        (r.1, [successStatus r.2])

/-- Test fixture: a stored cabinet row for orderNo "A" owned by cabinet 1,
with the status the cabinet normalizer gives a completed trade. -/

def fixtureCab1Row : CabTxRow :=
  { orderNo := some "A", counterparty := "Unknown", status := "COMPLETED",
    amount := none, asset := "Unknown", dateTime := 0, totalPrice := none,
    type := "SELL", unitPrice := none, cabinetId := 1, processed := false,
    extractedPhones := [], lastAttemptError := none }

/-- Test fixture: a completed Sell trade with id "A". -/

def fixtureTradeA : RawTrade :=
  { id := some "A", side := 1, status := 50 }

/-! ## The exchange client's clock state (C7, C10) -/

/-- The mutable clock state of a `BybitP2PParser` instance: constructed with
`timeOffset = 0` and `timeSyncComplete = false` (bybit.ts:69-71). -/

structure ParserState where
  timeOffset : Int
  timeSyncComplete : Bool
  deriving Repr, DecidableEq

/-- A fresh parser instance. -/

def initialParserState : ParserState := ⟨0, false⟩

/-- Outcome of the unauthenticated `GET /v5/market/time` request: the
request threw, or returned a response without a truthy
`result.timeNano`, or returned a server time in nanoseconds. -/

inductive TimeResponse where
  | transportError (msg : String)
  | missingTimeNano
  | timeNano (nano : Int)
  deriving Repr, DecidableEq

/-- `syncTime` (bybit.ts:93-110): its whole body sits in a `try`/`catch`
whose catch only logs and resets `timeOffset` to 0, so it returns normally
for every outcome; a response without `timeNano` silently leaves the state
unchanged; a good response stores `Math.floor(nano / 1e6) - localTime` and
sets the flag.  The `Except` result makes "never throws" expressible: the
function is total and always returns `.ok`. -/

def syncTime (resp : TimeResponse) (localTime : Int) (st : ParserState) :
    Except String ParserState :=
  match resp with
  | .transportError _ => .ok { st with timeOffset := 0 }
  | .missingTimeNano => .ok st
  | .timeNano nano =>
    .ok { st with timeOffset := Int.fdiv nano 1000000 - localTime,
                  timeSyncComplete := true }

/-- Error taxonomy of an authenticated call: the clock-contract violation
or a transport failure. -/

inductive ApiError where
  | clockNotSynced
  | transport (msg : String)
  deriving Repr, DecidableEq

/-- Outcome of the underlying HTTP call, were it attempted. -/

inductive NetOutcome where
  | ok (data : String)
  | fail (msg : String)
  deriving Repr, DecidableEq

/-- `makeRequest` (bybit.ts:145-215): before any network activity it throws
the clock-not-synced error when `timeSyncComplete` is false; otherwise it
attempts the call, propagating a transport failure. -/

def makeRequest (st : ParserState) (net : NetOutcome) : Except ApiError String :=
  if !st.timeSyncComplete then .error .clockNotSynced
  else
    match net with
    | .ok data => .ok data
    | .fail msg => .error (.transport msg)

/-- `p2pRequest` (bybit.ts:503-559): when the clock is not synchronized it
calls `syncTime` itself and then proceeds with the request regardless of
whether that sync succeeded; it never produces a clock-not-synced error. -/

def p2pRequest (st : ParserState) (timeResp : TimeResponse) (localTime : Int)
    (net : NetOutcome) : Except ApiError String × ParserState :=
  if !st.timeSyncComplete then
    match syncTime timeResp localTime st with
    | .ok st' =>
      (match net with
       | .ok data => (.ok data, st')
       | .fail msg => (.error (.transport msg), st'))
    | .error e => (.error (.transport e), st)
  else
    match net with
    | .ok data => (.ok data, st)
    | .fail msg => (.error (.transport msg), st)

/-! ## Phone-number extraction (C3, C6) -/

/-- One element of a phone regex: a literal character, an optional
single-character class (`X?`), or a fixed-width digit capture group
(`(\d{n})`). -/

inductive RegexAtom where
  | lit (c : Char)
  | optCls (cls : Char → Bool)
  | grp (n : ℕ)

/-- The class `[\s-]` used between digit groups. -/

def sepCls (c : Char) : Bool := isJsSpace c || c = '-'

/-- Anchored match of an atom sequence at the head of the input, with JS
greedy-plus-backtracking semantics for the optional atoms.  Returns the
concatenated captured digit groups and the rest of the input after the
match. -/

def matchAtoms : List RegexAtom → List Char → Option (List Char × List Char)
  | [], s => some ([], s)
  | .lit _ :: _, [] => none
  | .lit c :: as, x :: xs => if x = c then matchAtoms as xs else none
  | .optCls _ :: as, [] => matchAtoms as []
  | .optCls cls :: as, x :: xs =>
    if cls x then
      match matchAtoms as xs with
      | some r => some r
      | none => matchAtoms as (x :: xs)
    else matchAtoms as (x :: xs)
  | .grp n :: as, s =>
    let d := s.take n
    if d.length = n ∧ d.all isDigitCh then
      match matchAtoms as (s.drop n) with
      | some (cap, rest) => some (d ++ cap, rest)
      | none => none
    else none

/-- The `while ((match = pattern.exec(text)) !== null)` loop of a global
regex: scan left to right, continue after each match's end.  The fuel is
the remaining scan budget (the phone patterns never match the empty
string, so `length + 1` fuel is exhaustive). -/

def scanPattern (p : List RegexAtom) : ℕ → List Char → List (List Char)
  | 0, _ => []
  | fuel + 1, s =>
    match matchAtoms p s with
    | some (cap, rest) => cap :: scanPattern p fuel rest
    | none =>
      match s with
      | [] => []
      | _ :: xs => scanPattern p fuel xs

/-- All matches of a pattern over a text. -/

def scanMatches (p : List RegexAtom) (s : List Char) : List (List Char) :=
  scanPattern p (s.length + 1) s

/-- `/\+7\s?\(?(\d{3})\)?[\s-]?(\d{3})[\s-]?(\d{2})[\s-]?(\d{2})/g`. -/

def pattern1 : List RegexAtom :=
  [.lit '+', .lit '7', .optCls isJsSpace, .optCls (fun c => c = '('), .grp 3,
   .optCls (fun c => c = ')'), .optCls sepCls, .grp 3, .optCls sepCls, .grp 2,
   .optCls sepCls, .grp 2]

/-- `/\+7\s?(\d{3})(\d{3})(\d{2})(\d{2})/g`. -/

def pattern2 : List RegexAtom :=
  [.lit '+', .lit '7', .optCls isJsSpace, .grp 3, .grp 3, .grp 2, .grp 2]

/-- `/8\s?\(?(\d{3})\)?[\s-]?(\d{3})[\s-]?(\d{2})[\s-]?(\d{2})/g`. -/

def pattern3 : List RegexAtom :=
  [.lit '8', .optCls isJsSpace, .optCls (fun c => c = '('), .grp 3,
   .optCls (fun c => c = ')'), .optCls sepCls, .grp 3, .optCls sepCls, .grp 2,
   .optCls sepCls, .grp 2]

/-- `/8\s?(\d{3})(\d{3})(\d{2})(\d{2})/g`. -/

def pattern4 : List RegexAtom :=
  [.lit '8', .optCls isJsSpace, .grp 3, .grp 3, .grp 2, .grp 2]

/-- `/(\d{3})[\s-]?(\d{3})[\s-]?(\d{2})[\s-]?(\d{2})/g`. -/

def pattern5 : List RegexAtom :=
  [.grp 3, .optCls sepCls, .grp 3, .optCls sepCls, .grp 2, .optCls sepCls, .grp 2]

/-- The ordered pattern list of `extractPhoneNumbers` (part_000:566-572). -/

def phonePatterns : List (List RegexAtom) :=
  [pattern1, pattern2, pattern3, pattern4, pattern5]

/-- A chat message object: only `contentType` and `message` are read. -/

structure ChatMsg where
  contentType : String
  message : Option String
  deriving Repr, DecidableEq

/-- `Set.add` with JS insertion order (`Array.from` preserves it). -/

def insertUnique (l : List String) (x : String) : List String :=
  if x ∈ l then l else l ++ [x]

/-- The character class kept by `replace(/[^\d+]/g, '')`. -/

def keepCls (c : Char) : Bool := isDigitCh c || c = '+'

/-- `extractPhoneNumbers` (part_000:562-610): for each text message, for
each pattern, for each match: all three prefix branches build the same
`+7${m1}${m2}${m3}${m4}`; strip non-digit/non-plus characters; keep the
value only when its length is exactly 12; collect into an insertion-ordered
set. -/

def extractPhoneNumbers (messages : List ChatMsg) : List String :=
  messages.foldl
    (fun acc m =>
      if m.contentType = "str" ∧ truthy m.message then
        phonePatterns.foldl
          (fun acc2 p =>
            (scanMatches p (m.message.getD "").data).foldl
              (fun acc3 cap =>
                let phoneNumber := '+' :: '7' :: cap
                let stripped := phoneNumber.filter keepCls
                if stripped.length = 12 then
                  insertUnique acc3 (String.mk stripped)
                else acc3)
              acc2)
          acc
      else acc)
    []

/-- The canonical shape of an accepted phone value: 12 characters, a "+7"
prefix, digits after it. -/

def PhoneShape (v : String) : Prop :=
  v.length = 12 ∧ v.data.take 2 = ['+', '7'] ∧ (v.data.drop 2).all isDigitCh = true

/-! ## The enrichment pass (C6) -/

/-- Outcome of the chat-message request inside `getChatMessages`: the
request threw, or returned `(ret_code, result)` where the result is an
array of messages or something else (`none`). -/

inductive ChatFetchOutcome where
  | thrown (e : String)
  | response (retCode : Int) (result : Option (List ChatMsg))

/-- `getChatMessages` (part_000:533-556 and 1581-1604): returns the
response list when `ret_code = 0` and the result is an array, and `[]`
otherwise — including when the underlying request threw: the catch logs and
returns `[]`, so a failed chat fetch is indistinguishable from an empty
chat to its callers. -/

def getChatMessages : ChatFetchOutcome → List ChatMsg
  | .thrown _ => []
  | .response retCode result =>
    if retCode = 0 then
      match result with
      | some msgs => msgs
      | none => []
    else []

/-- One record step of `processUnprocessedCabinetTransactions`
(part_000:1353-1411), as a function of the record row and the outcome of
the per-record `try` body: `.ok chat` when the body ran to its update with
the fetched chat, `.error e` when something inside the `try` threw (the
catch then persists the error without marking the record processed). -/

def processCabinetRecord (body : Except String (List ChatMsg)) (r : CabTxRow) :
    CabTxRow :=
  match body with
  | .error e => { r with lastAttemptError := some e }
  | .ok chat =>
    if !chat.isEmpty then
      { r with extractedPhones := extractPhoneNumbers chat, processed := true }
    else
      { r with processed := true }

/-- The enrichment-relevant fields of a later-revision `bybitTransaction`
row (part_000:1480-1487). -/

structure UserEnrichRecord where
  processed : Bool
  lastAttemptError : Option String
  deriving Repr, DecidableEq

/-- One record step of the later-revision `processUnprocessedTransactions`
(part_000:1497-1570): on a completed body, a `BybitOrderInfo` row is
created with the extracted phones (empty when there are no messages) and
the record is marked processed; on a throw, the error is persisted without
marking.  The second component is the created order-info phone list, if
any. -/

def processUserRecordV3 (body : Except String (List ChatMsg))
    (r : UserEnrichRecord) : UserEnrichRecord × Option (List String) :=
  match body with
  | .error e => ({ r with lastAttemptError := some e }, none)
  | .ok chat =>
    if !chat.isEmpty then
      ({ r with processed := true }, some (extractPhoneNumbers chat))
    else
      ({ r with processed := true }, some [])

/-- One record step of the first-revision `processUnprocessedTransactions`
(part_000:479-521): the chat fetch never throws (its wrapper returns `[]`
on failure); when there are no messages, or no phone numbers are found, the
record is simply skipped — no `BybitOrderInfo` row is created, so the
record stays pending.  Result: the created row's phone list, if any. -/

def processUserRecordV1 (chat : List ChatMsg) : Option (List String) :=
  if chat.isEmpty then none
  else
    let phoneNumbers := extractPhoneNumbers chat
    if phoneNumbers.isEmpty then none
    else some phoneNumbers

end Bybit

namespace Bybit

/-- Helper for evaluating `decValue` on concrete scans. -/

theorem decValue_eval (neg : Bool) (iDs fDs : List Char) (i f : ℕ)
    (hi : digitsVal iDs = i) (hf : digitsVal fDs = f) :
    decValue ⟨neg, iDs, fDs⟩ =
      (if neg then -1 else 1) * ((i : ℚ) + (f : ℚ) / 10 ^ fDs.length) := by
  simp [decValue, fracVal, hi, hf]

/-- Helper for evaluating `parseFloatOrZero` on a concrete field. -/

theorem parseFloatOrZero_eval (os : Option String) (s : String) (p : DecParse)
    (h1 : jsOrD os "0" = s) (h2 : parseDecimalChars s = some p) :
    parseFloatOrZero os = some (decValue p) := by
  rw [parseFloatOrZero, h1, jsParseFloat, h2, Option.map]

/-- Once the success flag is set it stays set. -/

theorem runStrategyAux_hasSuccess_true (fetch : ℕ → PageResult) :
    ∀ (fuel page : ℕ) (acc : List RawTrade),
      (runStrategyAux fetch fuel page acc true).2.1 = true := by
  intro fuel
  induction fuel with
  | zero => intro page acc; rfl
  | succ n ih =>
    intro page acc
    rw [runStrategyAux]
    cases h : fetch page with
    | success txs =>
      by_cases he : txs.isEmpty
      · simp [he]
      · simp [he, ih]
    | thrown m => rfl
    | failure m => rfl

/-- The success flag of a strategy run is decided by its first page. -/

theorem runStrategy_hasSuccess (fetch : ℕ → PageResult) :
    (runStrategy fetch).2.1 = pageGood (fetch 1) := by
  rw [runStrategy, runStrategyAux]
  cases h : fetch 1 with
  | success txs =>
    by_cases he : txs.isEmpty
    · simp [he, pageGood, h]
    · simp [he, pageGood, h, runStrategyAux_hasSuccess_true]
  | thrown m => simp [pageGood, h]
  | failure m => simp [pageGood, h]

/-- A strategy run requests at most `fuel` pages. -/

theorem runStrategyAux_count_le (fetch : ℕ → PageResult) :
    ∀ (fuel page : ℕ) (acc : List RawTrade) (has : Bool),
      (runStrategyAux fetch fuel page acc has).2.2 ≤ fuel := by
  intro fuel
  induction fuel with
  | zero => intro page acc has; exact Nat.le_refl 0
  | succ n ih =>
    intro page acc has
    rw [runStrategyAux]
    cases h : fetch page with
    | success txs =>
      by_cases he : txs.isEmpty
      · simp [he]
      · simpa [he] using Nat.succ_le_succ (ih (page + 1) (acc ++ txs) true)
    | thrown m => simp
    | failure m => simp

/-- Pagination stops at the first bad page: when pages `page..page+k-1` are
good and `page+k` is bad (within the cap), exactly `k+1` pages are
requested. -/

theorem runStrategyAux_count_stop (fetch : ℕ → PageResult) :
    ∀ (k fuel page : ℕ) (acc : List RawTrade) (has : Bool),
      (∀ q, page ≤ q → q < page + k → pageGood (fetch q) = true) →
      pageGood (fetch (page + k)) = false →
      k < fuel →
      (runStrategyAux fetch fuel page acc has).2.2 = k + 1 := by
  intro k
  induction k with
  | zero =>
    intro fuel page acc has _ hbad hk
    obtain ⟨m, rfl⟩ : ∃ m, fuel = m + 1 :=
      ⟨fuel - 1, (Nat.succ_pred_eq_of_pos hk).symm⟩
    rw [runStrategyAux]
    rw [Nat.add_zero] at hbad
    cases h : fetch page with
    | success txs =>
      have : txs.isEmpty = true := by
        rw [h] at hbad
        simpa [pageGood] using hbad
      simp [this]
    | thrown m => rfl
    | failure m => rfl
  | succ n ih =>
    intro fuel page acc has hgood hbad hk
    obtain ⟨m, rfl⟩ : ∃ m, fuel = m + 1 :=
      ⟨fuel - 1, (Nat.succ_pred_eq_of_pos (Nat.lt_of_le_of_lt (Nat.zero_le _) hk)).symm⟩
    have hg1 : pageGood (fetch page) = true :=
      hgood page (Nat.le_refl _) (by omega)
    rw [runStrategyAux]
    cases h : fetch page with
    | success txs =>
      have hne : txs.isEmpty = false := by
        rw [h] at hg1
        simpa [pageGood] using hg1
      have := ih m (page + 1) (acc ++ txs) true
        (fun q hq1 hq2 => hgood q (by omega) (by omega))
        (by rw [show page + 1 + n = page + (n + 1) by omega]; exact hbad)
        (by omega)
      simp [hne, this]
    | thrown msg => rw [h] at hg1; simp [pageGood] at hg1
    | failure msg => rw [h] at hg1; simp [pageGood] at hg1

/-- Rows already stored survive the user save loop unchanged. -/

theorem userSaveLoop_mono (uid now : Int) :
    ∀ (trades : List RawTrade) (store : List UserTxRow) (r : UserTxRow),
      r ∈ store → r ∈ (userSaveLoop uid now trades store).1 := by
  intro trades
  induction trades with
  | nil => intro store r h; exact h
  | cons tx rest ih =>
    intro store r h
    rw [userSaveLoop]
    by_cases hk : userKeep tx
    · by_cases ho : userOrderNo tx = ""
      · simp only [hk, if_true, ho, if_true]; exact ih store r h
      · by_cases hf : (findUserTx store (userOrderNo tx) uid).isSome
        · simp only [hk, if_true, ho, if_false, hf, if_true]; exact ih store r h
        · simp only [hk, if_true, ho, if_false, hf, if_false]
          exact ih (store ++ [mkUserRow uid now tx]) r (List.mem_append_left _ h)
    · simp only [hk, if_false]; exact ih store r h

/-- After the user save loop, every kept trade with a non-empty orderNo has
a row under its (orderNo, userId) key. -/

theorem userSaveLoop_present (uid now : Int) :
    ∀ (trades : List RawTrade) (store : List UserTxRow) (tx : RawTrade),
      tx ∈ trades → userKeep tx = true → userOrderNo tx ≠ "" →
      ∃ r ∈ (userSaveLoop uid now trades store).1,
        r.orderNo = userOrderNo tx ∧ r.userId = uid := by
  intro trades
  induction trades with
  | nil => intro store tx h; exact absurd h (List.not_mem_nil tx)
  | cons hd rest ih =>
    intro store tx htx hk ho
    rcases List.mem_cons.mp htx with rfl | hmem
    · rw [userSaveLoop]
      simp only [hk, if_true, ho, if_false]
      by_cases hf : (findUserTx store (userOrderNo tx) uid).isSome
      · simp only [hf, if_true]
        obtain ⟨r, hr⟩ := Option.isSome_iff_exists.mp hf
        have hrs : r ∈ store := List.mem_of_find?_eq_some hr
        have hp := List.find?_some hr
        simp only [Bool.and_eq_true, beq_iff_eq] at hp
        exact ⟨r, userSaveLoop_mono uid now rest store r hrs, hp.1, hp.2⟩
      · simp only [hf, if_false]
        refine ⟨mkUserRow uid now tx, ?_, rfl, rfl⟩
        exact userSaveLoop_mono uid now rest (store ++ [mkUserRow uid now tx])
          (mkUserRow uid now tx) (List.mem_append_right _ (List.mem_singleton.mpr rfl))
    · rw [userSaveLoop]
      by_cases hkh : userKeep hd
      · by_cases hoh : userOrderNo hd = ""
        · simp only [hkh, if_true, hoh, if_true]; exact ih store tx hmem hk ho
        · by_cases hfh : (findUserTx store (userOrderNo hd) uid).isSome
          · simp only [hkh, if_true, hoh, if_false, hfh, if_true]
            exact ih store tx hmem hk ho
          · simp only [hkh, if_true, hoh, if_false, hfh, if_false]
            exact ih (store ++ [mkUserRow uid now hd]) tx hmem hk ho
      · simp only [hkh, if_false]; exact ih store tx hmem hk ho

/-- When every kept trade's key is already stored, the user save loop
inserts nothing and leaves the store untouched. -/

theorem userSaveLoop_skip_all (uid now : Int) :
    ∀ (trades : List RawTrade) (store : List UserTxRow),
      (∀ tx ∈ trades, userKeep tx = true → userOrderNo tx ≠ "" →
        ∃ r ∈ store, r.orderNo = userOrderNo tx ∧ r.userId = uid) →
      userSaveLoop uid now trades store = (store, 0) := by
  intro trades
  induction trades with
  | nil => intro store _; rfl
  | cons tx rest ih =>
    intro store h
    rw [userSaveLoop]
    by_cases hk : userKeep tx
    · by_cases ho : userOrderNo tx = ""
      · simp only [hk, if_true, ho, if_true]
        exact ih store (fun t ht => h t (List.mem_cons_of_mem tx ht))
      · have hf : (findUserTx store (userOrderNo tx) uid).isSome := by
          obtain ⟨r, hrs, h1, h2⟩ := h tx (List.mem_cons_self tx rest) hk ho
          refine List.find?_isSome.mpr ⟨r, hrs, ?_⟩
          simp [h1, h2]
        simp only [hk, if_true, ho, if_false, hf, if_true]
        exact ih store (fun t ht => h t (List.mem_cons_of_mem tx ht))
    · simp only [hk, if_false]
      exact ih store (fun t ht => h t (List.mem_cons_of_mem tx ht))

/-- The user save loop preserves uniqueness of the (orderNo, userId) key. -/

theorem userSaveLoop_unique (uid now : Int) :
    ∀ (trades : List RawTrade) (store : List UserTxRow),
      UserKeyUnique store → UserKeyUnique (userSaveLoop uid now trades store).1 := by
  intro trades
  induction trades with
  | nil => intro store h; exact h
  | cons tx rest ih =>
    intro store h
    rw [userSaveLoop]
    by_cases hk : userKeep tx
    · by_cases ho : userOrderNo tx = ""
      · simp only [hk, if_true, ho, if_true]; exact ih store h
      · by_cases hf : (findUserTx store (userOrderNo tx) uid).isSome
        · simp only [hk, if_true, ho, if_false, hf, if_true]; exact ih store h
        · simp only [hk, if_true, ho, if_false, hf, if_false]
          refine ih (store ++ [mkUserRow uid now tx]) ?_
          rw [UserKeyUnique, List.pairwise_append]
          refine ⟨h, List.pairwise_singleton _ _, ?_⟩
          intro a ha b hb
          rw [List.mem_singleton] at hb
          subst hb
          have hnone : findUserTx store (userOrderNo tx) uid = none :=
            Option.not_isSome_iff_eq_none.mp hf
          have := List.find?_eq_none.mp hnone a ha
          intro hcon
          exact this (by simp [hcon.1, hcon.2, mkUserRow])
    · simp only [hk, if_false]; exact ih store h

/-- The user save loop only appends: final length = initial length + count. -/

theorem userSaveLoop_length (uid now : Int) :
    ∀ (trades : List RawTrade) (store : List UserTxRow),
      (userSaveLoop uid now trades store).1.length =
        store.length + (userSaveLoop uid now trades store).2 := by
  intro trades
  induction trades with
  | nil => intro store; rfl
  | cons tx rest ih =>
    intro store
    rw [userSaveLoop]
    by_cases hk : userKeep tx
    · by_cases ho : userOrderNo tx = ""
      · simp only [hk, if_true, ho, if_true]; exact ih store
      · by_cases hf : (findUserTx store (userOrderNo tx) uid).isSome
        · simp only [hk, if_true, ho, if_false, hf, if_true]; exact ih store
        · simp only [hk, if_true, ho, if_false, hf, if_false]
          have h1 := ih (store ++ [mkUserRow uid now tx])
          simp only [List.length_append, List.length_singleton] at h1
          show (userSaveLoop uid now rest (store ++ [mkUserRow uid now tx])).1.length =
            store.length + ((userSaveLoop uid now rest (store ++ [mkUserRow uid now tx])).2 + 1)
          omega
    · simp only [hk, if_false]; exact ih store

/-- Every row produced by the user save loop either was already stored or
comes from a kept (Sell, Completed) trade through the normalizer. -/

theorem userSaveLoop_new_rows (uid now : Int) :
    ∀ (trades : List RawTrade) (store : List UserTxRow) (r : UserTxRow),
      r ∈ (userSaveLoop uid now trades store).1 →
      r ∈ store ∨ ∃ tx ∈ trades, tx.side = 1 ∧ tx.status = 50 ∧
        r = mkUserRow uid now tx := by
  intro trades
  induction trades with
  | nil => intro store r h; exact Or.inl h
  | cons tx rest ih =>
    intro store r h
    rw [userSaveLoop] at h
    by_cases hk : userKeep tx
    · by_cases ho : userOrderNo tx = ""
      · simp only [hk, if_true, ho, if_true] at h
        rcases ih store r h with h' | ⟨t, ht, hs⟩
        · exact Or.inl h'
        · exact Or.inr ⟨t, List.mem_cons_of_mem tx ht, hs⟩
      · by_cases hf : (findUserTx store (userOrderNo tx) uid).isSome
        · simp only [hk, if_true, ho, if_false, hf, if_true] at h
          rcases ih store r h with h' | ⟨t, ht, hs⟩
          · exact Or.inl h'
          · exact Or.inr ⟨t, List.mem_cons_of_mem tx ht, hs⟩
        · simp only [hk, if_true, ho, if_false, hf, if_false] at h
          rcases ih (store ++ [mkUserRow uid now tx]) r h with h' | ⟨t, ht, hs⟩
          · rcases List.mem_append.mp h' with h'' | h''
            · exact Or.inl h''
            · rw [List.mem_singleton] at h''
              have hks : tx.side = 1 ∧ tx.status = 50 := by
                have := hk
                simp only [userKeep, Bool.and_eq_true, beq_iff_eq] at this
                exact this
              exact Or.inr ⟨tx, List.mem_cons_self tx rest, hks.1, hks.2, h''⟩
          · exact Or.inr ⟨t, List.mem_cons_of_mem tx ht, hs⟩
    · simp only [hk, if_false] at h
      rcases ih store r h with h' | ⟨t, ht, hs⟩
      · exact Or.inl h'
      · exact Or.inr ⟨t, List.mem_cons_of_mem tx ht, hs⟩

/-- The cabinet status update rewrites only the status: orderNo survives. -/

theorem cabUpdate_orderNo (s : String) (ono : Option String) (r : CabTxRow) :
    (if r.orderNo == ono then { r with status := s } else r).orderNo = r.orderNo := by
  by_cases h : r.orderNo == ono <;> simp [h]

/-- An orderNo key present before the cabinet save loop is still present
after it (rows are only appended or status-updated, never removed). -/

theorem cabinetSaveLoop_keys (cabId now : Int) :
    ∀ (txs : List RawTrade) (store : List CabTxRow) (ono : Option String),
      (∃ r ∈ store, r.orderNo = ono) →
      ∃ r ∈ (cabinetSaveLoop cabId now txs store).1, r.orderNo = ono := by
  intro txs
  induction txs with
  | nil => intro store ono h; exact h
  | cons tx rest ih =>
    intro store ono h
    cases hfind : findCabTx store
        (transformCabinetTransactionToDbFormat tx cabId now).orderNo with
    | none =>
      simp only [cabinetSaveLoop, hfind]
      obtain ⟨r, hrs, hr⟩ := h
      exact ih (store ++ [transformCabinetTransactionToDbFormat tx cabId now]) ono
        ⟨r, List.mem_append_left _ hrs, hr⟩
    | some existing =>
      simp only [cabinetSaveLoop, hfind]
      by_cases hst : existing.status ≠
          (transformCabinetTransactionToDbFormat tx cabId now).status
      · rw [if_pos hst]
        obtain ⟨r, hrs, hr⟩ := h
        refine ih _ ono ⟨_, List.mem_map_of_mem _ hrs, ?_⟩
        rw [cabUpdate_orderNo]; exact hr
      · rw [if_neg hst]
        exact ih store ono h

/-- After the cabinet save loop every processed trade's `id` is present as
an orderNo key. -/

theorem cabinetSaveLoop_present (cabId now : Int) :
    ∀ (txs : List RawTrade) (store : List CabTxRow) (tx : RawTrade),
      tx ∈ txs →
      ∃ r ∈ (cabinetSaveLoop cabId now txs store).1, r.orderNo = tx.id := by
  intro txs
  induction txs with
  | nil => intro store tx h; exact absurd h (List.not_mem_nil tx)
  | cons hd rest ih =>
    intro store tx htx
    rcases List.mem_cons.mp htx with rfl | hmem
    · cases hfind : findCabTx store
          (transformCabinetTransactionToDbFormat tx cabId now).orderNo with
      | none =>
        simp only [cabinetSaveLoop, hfind]
        exact cabinetSaveLoop_keys cabId now rest _ tx.id
          ⟨transformCabinetTransactionToDbFormat tx cabId now,
            List.mem_append_right _ (List.mem_singleton.mpr rfl), rfl⟩
      | some existing =>
        simp only [cabinetSaveLoop, hfind]
        have hex : existing ∈ store := List.mem_of_find?_eq_some hfind
        have heo : existing.orderNo = tx.id := by
          have h1 := List.find?_some hfind
          simpa [transformCabinetTransactionToDbFormat] using h1
        by_cases hst : existing.status ≠
            (transformCabinetTransactionToDbFormat tx cabId now).status
        · rw [if_pos hst]
          refine cabinetSaveLoop_keys cabId now rest _ tx.id
            ⟨_, List.mem_map_of_mem _ hex, ?_⟩
          rw [cabUpdate_orderNo]; exact heo
        · rw [if_neg hst]
          exact cabinetSaveLoop_keys cabId now rest store tx.id ⟨existing, hex, heo⟩
    · cases hfind : findCabTx store
          (transformCabinetTransactionToDbFormat hd cabId now).orderNo with
      | none =>
        simp only [cabinetSaveLoop, hfind]
        exact ih _ tx hmem
      | some existing =>
        simp only [cabinetSaveLoop, hfind]
        by_cases hst : existing.status ≠
            (transformCabinetTransactionToDbFormat hd cabId now).status
        · rw [if_pos hst]; exact ih _ tx hmem
        · rw [if_neg hst]; exact ih store tx hmem

/-- When every processed trade's `id` is already an orderNo key of the
store, the cabinet save loop creates no new rows. -/

theorem cabinetSaveLoop_skip_inserts (cabId now : Int) :
    ∀ (txs : List RawTrade) (store : List CabTxRow),
      (∀ tx ∈ txs, ∃ r ∈ store, r.orderNo = tx.id) →
      (cabinetSaveLoop cabId now txs store).2 = 0 := by
  intro txs
  induction txs with
  | nil => intro store _; rfl
  | cons tx rest ih =>
    intro store h
    cases hfind : findCabTx store
        (transformCabinetTransactionToDbFormat tx cabId now).orderNo with
    | none =>
      obtain ⟨r, hrs, hr⟩ := h tx (List.mem_cons_self tx rest)
      have h2 := List.find?_eq_none.mp hfind r hrs
      simp only [transformCabinetTransactionToDbFormat, beq_iff_eq] at h2
      exact absurd hr (by simpa using h2)
    | some existing =>
      simp only [cabinetSaveLoop, hfind]
      by_cases hst : existing.status ≠
          (transformCabinetTransactionToDbFormat tx cabId now).status
      · rw [if_pos hst]
        refine ih _ (fun t ht => ?_)
        obtain ⟨r, hrs, hr⟩ := h t (List.mem_cons_of_mem tx ht)
        refine ⟨_, List.mem_map_of_mem _ hrs, ?_⟩
        rw [cabUpdate_orderNo]; exact hr
      · rw [if_neg hst]
        exact ih store (fun t ht => h t (List.mem_cons_of_mem tx ht))

/-- The cabinet save loop preserves orderNo uniqueness. -/

theorem cabinetSaveLoop_unique (cabId now : Int) :
    ∀ (txs : List RawTrade) (store : List CabTxRow),
      CabKeyUnique store → CabKeyUnique (cabinetSaveLoop cabId now txs store).1 := by
  intro txs
  induction txs with
  | nil => intro store h; exact h
  | cons tx rest ih =>
    intro store h
    cases hfind : findCabTx store
        (transformCabinetTransactionToDbFormat tx cabId now).orderNo with
    | none =>
      simp only [cabinetSaveLoop, hfind]
      refine ih _ ?_
      rw [CabKeyUnique, List.pairwise_append]
      refine ⟨h, List.pairwise_singleton _ _, ?_⟩
      intro a ha b hb
      rw [List.mem_singleton] at hb
      subst hb
      have h2 := List.find?_eq_none.mp hfind a ha
      simpa using h2
    | some existing =>
      simp only [cabinetSaveLoop, hfind]
      by_cases hst : existing.status ≠
          (transformCabinetTransactionToDbFormat tx cabId now).status
      · rw [if_pos hst]
        refine ih _ ?_
        refine List.Pairwise.map _ (fun a b hab => ?_) h
        rw [cabUpdate_orderNo, cabUpdate_orderNo]
        exact hab
      · rw [if_neg hst]
        exact ih store h

/-- The cabinet save loop never deletes rows: final length = initial
length + insert count. -/

theorem cabinetSaveLoop_length (cabId now : Int) :
    ∀ (txs : List RawTrade) (store : List CabTxRow),
      (cabinetSaveLoop cabId now txs store).1.length =
        store.length + (cabinetSaveLoop cabId now txs store).2 := by
  intro txs
  induction txs with
  | nil => intro store; rfl
  | cons tx rest ih =>
    intro store
    cases hfind : findCabTx store
        (transformCabinetTransactionToDbFormat tx cabId now).orderNo with
    | none =>
      simp only [cabinetSaveLoop, hfind]
      have h1 := ih (store ++ [transformCabinetTransactionToDbFormat tx cabId now])
      simp only [List.length_append, List.length_singleton] at h1
      omega
    | some existing =>
      simp only [cabinetSaveLoop, hfind]
      by_cases hst : existing.status ≠
          (transformCabinetTransactionToDbFormat tx cabId now).status
      · rw [if_pos hst]
        have h1 := ih (store.map fun r =>
          if r.orderNo == (transformCabinetTransactionToDbFormat tx cabId now).orderNo then
            { r with status := (transformCabinetTransactionToDbFormat tx cabId now).status }
          else r)
        simpa [List.length_map] using h1
      · rw [if_neg hst]
        exact ih store

/-- Captures produced by `matchAtoms` consist of digits only. -/

theorem matchAtoms_caps :
    ∀ (atoms : List RegexAtom) (s cap rest : List Char),
      matchAtoms atoms s = some (cap, rest) → cap.all isDigitCh = true := by
  intro atoms
  induction atoms with
  | nil =>
    intro s cap rest h
    simp only [matchAtoms, Option.some.injEq, Prod.mk.injEq] at h
    rw [← h.1]
    rfl
  | cons a as ih =>
    intro s cap rest h
    cases a with
    | lit c =>
      cases s with
      | nil => exact absurd h (by simp [matchAtoms])
      | cons x xs =>
        simp only [matchAtoms] at h
        by_cases hx : x = c
        · rw [if_pos hx] at h; exact ih xs cap rest h
        · rw [if_neg hx] at h; exact absurd h (by simp)
    | optCls cls =>
      cases s with
      | nil => simp only [matchAtoms] at h; exact ih [] cap rest h
      | cons x xs =>
        simp only [matchAtoms] at h
        by_cases hx : cls x
        · rw [if_pos hx] at h
          cases hm : matchAtoms as xs with
          | some r =>
            rw [hm] at h
            have hr := Option.some.inj h
            subst hr
            exact ih xs cap rest hm
          | none =>
            rw [hm] at h
            exact ih (x :: xs) cap rest h
        · rw [if_neg hx] at h
          exact ih (x :: xs) cap rest h
    | grp n =>
      simp only [matchAtoms] at h
      by_cases hc : (s.take n).length = n ∧ (s.take n).all isDigitCh
      · rw [if_pos hc] at h
        cases hm : matchAtoms as (s.drop n) with
        | some pr =>
          rw [hm] at h
          cases pr with
          | mk cap2 rest2 =>
            simp only [Option.some.injEq, Prod.mk.injEq] at h
            rw [← h.1, List.all_append]
            have h2 := ih (s.drop n) cap2 rest2 hm
            simp [hc.2, h2]
        | none => rw [hm] at h; exact absurd h (by simp)
      · rw [if_neg hc] at h; exact absurd h (by simp)

/-- One-step unfolding of the scan loop. -/

theorem scanPattern_succ (p : List RegexAtom) (fuel : ℕ) (s : List Char) :
    scanPattern p (fuel + 1) s =
      match matchAtoms p s with
      | some (cap, rest) => cap :: scanPattern p fuel rest
      | none =>
        match s with
        | [] => []
        | _ :: xs => scanPattern p fuel xs := rfl

/-- Every capture collected by the scan loop consists of digits only. -/

theorem scanPattern_caps (p : List RegexAtom) :
    ∀ (fuel : ℕ) (s cap : List Char),
      cap ∈ scanPattern p fuel s → cap.all isDigitCh = true := by
  intro fuel
  induction fuel with
  | zero => intro s cap h; exact absurd h (List.not_mem_nil cap)
  | succ n ih =>
    intro s cap h
    cases hm : matchAtoms p s with
    | some pr =>
      cases pr with
      | mk c r =>
        have hs : scanPattern p (n + 1) s = c :: scanPattern p n r := by
          rw [scanPattern_succ, hm]
        rw [hs] at h
        rcases List.mem_cons.mp h with rfl | h2
        · exact matchAtoms_caps p s cap r hm
        · exact ih r cap h2
    | none =>
      cases s with
      | nil =>
        have hs : scanPattern p (n + 1) [] = [] := by
          rw [scanPattern_succ, hm]
        rw [hs] at h
        exact absurd h (List.not_mem_nil cap)
      | cons x xs =>
        have hs : scanPattern p (n + 1) (x :: xs) = scanPattern p n xs := by
          rw [scanPattern_succ, hm]
        rw [hs] at h
        exact ih xs cap h

/-- Fold invariant restricted to elements of the folded list. -/

theorem foldl_invariant_mem {α β : Type} (P : β → Prop) :
    ∀ (l : List α) (f : β → α → β),
      (∀ b a, a ∈ l → P b → P (f b a)) → ∀ b, P b → P (l.foldl f b) := by
  intro l
  induction l with
  | nil => intro f _ b hb; exact hb
  | cons a t ih =>
    intro f hf b hb
    exact ih f (fun b2 a2 ha2 => hf b2 a2 (List.mem_cons_of_mem a ha2))
      (f b a) (hf b a (List.mem_cons_self a t) hb)

/-- `insertUnique` preserves `Nodup`. -/

theorem insertUnique_nodup (l : List String) (x : String) (h : l.Nodup) :
    (insertUnique l x).Nodup := by
  rw [insertUnique]
  by_cases hx : x ∈ l
  · rw [if_pos hx]; exact h
  · rw [if_neg hx]
    rw [List.nodup_append]
    exact ⟨h, List.nodup_singleton x,
      fun a ha hax => hx (by rwa [List.mem_singleton.mp hax] at ha)⟩

/-- Membership after `insertUnique`. -/

theorem insertUnique_mem (l : List String) (x v : String)
    (h : v ∈ insertUnique l x) : v ∈ l ∨ v = x := by
  rw [insertUnique] at h
  by_cases hx : x ∈ l
  · rw [if_pos hx] at h; exact Or.inl h
  · rw [if_neg hx] at h
    rcases List.mem_append.mp h with h2 | h2
    · exact Or.inl h2
    · exact Or.inr (List.mem_singleton.mp h2)

/-- The result of `extractPhoneNumbers` is duplicate-free and every value
has the canonical "+7" 12-character digit shape. -/

theorem extractPhoneNumbers_shape (msgs : List ChatMsg) :
    (extractPhoneNumbers msgs).Nodup ∧
      ∀ v ∈ extractPhoneNumbers msgs, PhoneShape v := by
  rw [extractPhoneNumbers]
  refine foldl_invariant_mem
    (fun acc => acc.Nodup ∧ ∀ v ∈ acc, PhoneShape v) msgs _
    ?_ [] ⟨List.nodup_nil, by simp⟩
  intro acc m _ hacc
  by_cases hm : m.contentType = "str" ∧ truthy m.message
  · rw [if_pos hm]
    refine foldl_invariant_mem
      (fun acc2 => acc2.Nodup ∧ ∀ v ∈ acc2, PhoneShape v) phonePatterns _ ?_ acc hacc
    intro acc2 p _ hacc2
    refine foldl_invariant_mem
      (fun acc3 => acc3.Nodup ∧ ∀ v ∈ acc3, PhoneShape v)
      (scanMatches p (m.message.getD "").data) _ ?_ acc2 hacc2
    intro acc3 cap hcap hacc3
    have hdig : cap.all isDigitCh = true :=
      scanPattern_caps p _ _ cap hcap
    have hstr : ('+' :: '7' :: cap).filter keepCls = '+' :: '7' :: cap := by
      have hcap2 : cap.filter keepCls = cap := by
        refine List.filter_eq_self.mpr (fun a ha => ?_)
        have := List.all_eq_true.mp hdig a ha
        simp [keepCls, this]
      simp only [List.filter_cons]
      rw [if_pos (by decide : keepCls '+' = true),
        if_pos (by decide : keepCls '7' = true), hcap2]
    by_cases hlen : (('+' :: '7' :: cap).filter keepCls).length = 12
    · rw [if_pos hlen]
      refine ⟨insertUnique_nodup _ _ hacc3.1, fun v hv => ?_⟩
      rcases insertUnique_mem _ _ _ hv with h2 | h2
      · exact hacc3.2 v h2
      · rw [h2]
        refine ⟨?_, ?_, ?_⟩
        · show (('+' :: '7' :: cap).filter keepCls).length = 12
          exact hlen
        · show (('+' :: '7' :: cap).filter keepCls).take 2 = ['+', '7']
          rw [hstr]
          rfl
        · show ((('+' :: '7' :: cap).filter keepCls).drop 2).all isDigitCh = true
          rw [hstr]
          exact hdig
    · rw [if_neg hlen]
      exact hacc3
  · rw [if_neg hm]
    exact hacc

end Bybit

/-- `parseFloat("1.5") = 3/2` in the rational model. -/

theorem parseFloat_onePointFive :
    Bybit.parseFloatOrZero (some "1.5") = some (3 / 2 : ℚ) := by
  rw [Bybit.parseFloatOrZero_eval (some "1.5") "1.5" ⟨false, ['1'], ['5']⟩
    (by decide) (by decide)]
  rw [Bybit.decValue_eval false ['1'] ['5'] 1 5 (by decide) (by decide)]
  norm_num

/-- `parseFloat("30000") = 30000` in the rational model. -/

theorem parseFloat_thirtyThousand :
    Bybit.parseFloatOrZero (some "30000") = some (30000 : ℚ) := by
  rw [Bybit.parseFloatOrZero_eval (some "30000") "30000"
    ⟨false, ['3', '0', '0', '0', '0'], []⟩ (by decide) (by decide)]
  rw [Bybit.decValue_eval false ['3', '0', '0', '0', '0'] [] 30000 0
    (by decide) (by decide)]
  norm_num

/-- `parseFloat("2") = 2` in the rational model. -/

theorem parseFloat_two :
    Bybit.parseFloatOrZero (some "2") = some (2 : ℚ) := by
  rw [Bybit.parseFloatOrZero_eval (some "2") "2" ⟨false, ['2'], []⟩
    (by decide) (by decide)]
  rw [Bybit.decValue_eval false ['2'] [] 2 0 (by decide) (by decide)]
  norm_num

/-- `parseFloat("100") = 100` in the rational model. -/

theorem parseFloat_hundred :
    Bybit.parseFloatOrZero (some "100") = some (100 : ℚ) := by
  rw [Bybit.parseFloatOrZero_eval (some "100") "100" ⟨false, ['1', '0', '0'], []⟩
    (by decide) (by decide)]
  rw [Bybit.decValue_eval false ['1', '0', '0'] [] 100 0 (by decide) (by decide)]
  norm_num

set_option maxRecDepth 4000

/-- C1 counterexample: the cabinet sync's existence check is keyed on
`orderNo` alone, not on (orderNo, accountId): with a stored row for
orderNo "A" owned by cabinet 1, syncing cabinet 2 with a completed Sell
trade of the same id inserts nothing, although no row with
(orderNo "A", cabinet 2) exists. -/

theorem c1_counterexample :
    Bybit.cabinetSaveLoop 2 0 [Bybit.fixtureTradeA] [Bybit.fixtureCab1Row] =
      ([Bybit.fixtureCab1Row], 0) ∧
    ¬∃ r ∈ [Bybit.fixtureCab1Row], r.orderNo = some "A" ∧ r.cabinetId = 2 := by
  refine ⟨by decide, by decide⟩

/-- C1 (amended): both sync paths are idempotent upserts — each run only
appends (final size = initial size + insert count), key uniqueness is
preserved, and a second run over the same upstream list inserts zero new
rows — but the user path deduplicates by (orderNo, userId) while the
cabinet path deduplicates by orderNo alone, updating an existing row only
on a status change and never re-creating it. -/

theorem c1_idempotent_upsert (uid cabId now now2 : Int)
    (trades txs : List Bybit.RawTrade)
    (ustore : List Bybit.UserTxRow) (cstore : List Bybit.CabTxRow)
    (hu : Bybit.UserKeyUnique ustore) (hc : Bybit.CabKeyUnique cstore) :
    Bybit.UserKeyUnique (Bybit.userSaveLoop uid now trades ustore).1 ∧
    Bybit.userSaveLoop uid now2 trades (Bybit.userSaveLoop uid now trades ustore).1 =
      ((Bybit.userSaveLoop uid now trades ustore).1, 0) ∧
    (Bybit.userSaveLoop uid now trades ustore).1.length =
      ustore.length + (Bybit.userSaveLoop uid now trades ustore).2 ∧
    Bybit.CabKeyUnique (Bybit.cabinetSaveLoop cabId now txs cstore).1 ∧
    (Bybit.cabinetSaveLoop cabId now2 txs
      (Bybit.cabinetSaveLoop cabId now txs cstore).1).2 = 0 ∧
    (Bybit.cabinetSaveLoop cabId now txs cstore).1.length =
      cstore.length + (Bybit.cabinetSaveLoop cabId now txs cstore).2 := by
  refine ⟨Bybit.userSaveLoop_unique uid now trades ustore hu, ?_,
    Bybit.userSaveLoop_length uid now trades ustore,
    Bybit.cabinetSaveLoop_unique cabId now txs cstore hc, ?_,
    Bybit.cabinetSaveLoop_length cabId now txs cstore⟩
  · refine Bybit.userSaveLoop_skip_all uid now2 trades _ (fun tx htx hk ho => ?_)
    exact Bybit.userSaveLoop_present uid now trades ustore tx htx hk ho
  · refine Bybit.cabinetSaveLoop_skip_inserts cabId now2 txs _ (fun tx htx => ?_)
    exact Bybit.cabinetSaveLoop_present cabId now txs cstore tx htx

/-- Witness for `c1_idempotent_upsert` on concrete single-trade runs from
empty stores. -/

theorem c1_idempotent_upsert_witness :
    Bybit.UserKeyUnique (Bybit.userSaveLoop 1 0
      [{ id := some "T", side := 1, status := 50 }] []).1 ∧
    Bybit.userSaveLoop 1 0 [{ id := some "T", side := 1, status := 50 }]
        (Bybit.userSaveLoop 1 0 [{ id := some "T", side := 1, status := 50 }] []).1 =
      ((Bybit.userSaveLoop 1 0 [{ id := some "T", side := 1, status := 50 }] []).1, 0) ∧
    (Bybit.userSaveLoop 1 0 [{ id := some "T", side := 1, status := 50 }] []).1.length =
      ([] : List Bybit.UserTxRow).length +
        (Bybit.userSaveLoop 1 0 [{ id := some "T", side := 1, status := 50 }] []).2 ∧
    Bybit.CabKeyUnique (Bybit.cabinetSaveLoop 1 0
      [{ id := some "C", side := 1, status := 50 }] []).1 ∧
    (Bybit.cabinetSaveLoop 1 0 [{ id := some "C", side := 1, status := 50 }]
      (Bybit.cabinetSaveLoop 1 0 [{ id := some "C", side := 1, status := 50 }] []).1).2 = 0 ∧
    (Bybit.cabinetSaveLoop 1 0 [{ id := some "C", side := 1, status := 50 }] []).1.length =
      ([] : List Bybit.CabTxRow).length +
        (Bybit.cabinetSaveLoop 1 0 [{ id := some "C", side := 1, status := 50 }] []).2 :=
  c1_idempotent_upsert 1 1 0 0
    [{ id := some "T", side := 1, status := 50 }]
    [{ id := some "C", side := 1, status := 50 }] [] []
    List.Pairwise.nil List.Pairwise.nil

/-- C2: in the per-user sync, strategy 2 is attempted exactly when strategy 1
set no success flag, which happens exactly when strategy 1's first page is
empty or failed; a strategy with a successful non-empty page never yields to
strategy 2; within each strategy at most 10 pages are requested and
pagination stops at the first empty-or-failed page. -/

theorem c2_fallback (f1 f2 : ℕ → Bybit.PageResult) :
    ((Bybit.runStrategy f1).2.1 = Bybit.pageGood (f1 1)) ∧
    (Bybit.pageGood (f1 1) = false →
      (Bybit.runFallback f1 f2).strategy2Invoked = true) ∧
    (Bybit.pageGood (f1 1) = true →
      (Bybit.runFallback f1 f2).strategy2Invoked = false) ∧
    (Bybit.runFallback f1 f2).pages1 ≤ 10 ∧
    (Bybit.runFallback f1 f2).pages2 ≤ 10 ∧
    (∀ p, 1 ≤ p → p ≤ 10 → Bybit.pageGood (f1 p) = false →
      (∀ q, 1 ≤ q → q < p → Bybit.pageGood (f1 q) = true) →
      (Bybit.runFallback f1 f2).pages1 = p) := by
  have hs := Bybit.runStrategy_hasSuccess f1
  have hp1 : (Bybit.runFallback f1 f2).pages1 = (Bybit.runStrategy f1).2.2 := by
    rw [Bybit.runFallback]
    by_cases h : (Bybit.runStrategy f1).2.1 <;> simp [h]
  refine ⟨hs, ?_, ?_, ?_, ?_, ?_⟩
  · intro h
    rw [Bybit.runFallback]
    simp [hs, h]
  · intro h
    rw [Bybit.runFallback]
    simp [hs, h]
  · rw [hp1]; exact Bybit.runStrategyAux_count_le f1 10 1 [] false
  · rw [Bybit.runFallback]
    by_cases h : (Bybit.runStrategy f1).2.1
    · simp [h]
    · simp [h, Bybit.runStrategyAux_count_le]
  · intro p hp1' hp10 hbad hgood
    rw [hp1, Bybit.runStrategy]
    have := Bybit.runStrategyAux_count_stop f1 (p - 1) 10 1 [] false
      (fun q hq1 hq2 => hgood q hq1 (by omega))
      (by rw [show 1 + (p - 1) = p by omega]; exact hbad)
      (by omega)
    rw [this]; omega

/-- Witness for `c2_fallback`: with a strategy 1 whose first page fails,
strategy 2 is invoked; with a strategy 1 whose first page is non-empty,
it is not. -/

theorem c2_fallback_witness :
    (Bybit.runFallback (fun _ => Bybit.PageResult.failure "err")
        (fun _ => Bybit.PageResult.success [])).strategy2Invoked = true ∧
    (Bybit.runFallback
        (fun p => if p = 1 then Bybit.PageResult.success [{ id := some "T" }]
          else Bybit.PageResult.failure "err")
        (fun _ => Bybit.PageResult.success [])).strategy2Invoked = false ∧
    (Bybit.runFallback (fun _ => Bybit.PageResult.failure "err")
        (fun _ => Bybit.PageResult.success [])).pages1 = 1 := by
  have h1 := c2_fallback (fun _ => Bybit.PageResult.failure "err")
    (fun _ => Bybit.PageResult.success [])
  have h2 := c2_fallback
    (fun p => if p = 1 then Bybit.PageResult.success [{ id := some "T" }]
      else Bybit.PageResult.failure "err")
    (fun _ => Bybit.PageResult.success [])
  exact ⟨h1.2.1 (by rfl), h2.2.2.1 (by rfl),
    h1.2.2.2.2.2 1 (by omega) (by omega) (by rfl)
      (fun q hq1 hq2 => absurd (Nat.lt_of_le_of_lt hq1 hq2) (Nat.lt_irrefl 1))⟩

/-- C3: the phone extractor yields exactly ["+79991234567"] for the message
"Звоните 8 (999) 123-45-67", the same single canonical value for
"+7 999 123 45 67", and a single-element result when the same number occurs
in two messages; the result is duplicate-free, and every accepted value is
the match's digit groups behind a "+7" prefix, stripped to digit/plus
characters and exactly 12 characters long. -/

theorem c3_phone_extraction (msgs : List Bybit.ChatMsg) (v : String)
    (hv : v ∈ Bybit.extractPhoneNumbers msgs) :
    Bybit.extractPhoneNumbers [⟨"str", some "Звоните 8 (999) 123-45-67"⟩] =
      ["+79991234567"] ∧
    Bybit.extractPhoneNumbers [⟨"str", some "+7 999 123 45 67"⟩] =
      ["+79991234567"] ∧
    Bybit.extractPhoneNumbers
        [⟨"str", some "8 (999) 123-45-67"⟩, ⟨"str", some "+7 999 123 45 67"⟩] =
      ["+79991234567"] ∧
    (Bybit.extractPhoneNumbers msgs).Nodup ∧
    v.length = 12 ∧ v.data.take 2 = ['+', '7'] ∧
    (v.data.drop 2).all Bybit.isDigitCh = true := by
  have hshape := Bybit.extractPhoneNumbers_shape msgs
  have hv2 := hshape.2 v hv
  exact ⟨by decide, by decide, by decide, hshape.1, hv2.1, hv2.2.1, hv2.2.2⟩

/-- Witness for `c3_phone_extraction` at a concrete message list and value. -/

theorem c3_phone_extraction_witness :
    ("+79991234567" : String) ∈
      Bybit.extractPhoneNumbers [⟨"str", some "+7 999 123 45 67"⟩] ∧
    (Bybit.extractPhoneNumbers [⟨"str", some "Звоните 8 (999) 123-45-67"⟩] =
      ["+79991234567"] ∧
    Bybit.extractPhoneNumbers [⟨"str", some "+7 999 123 45 67"⟩] =
      ["+79991234567"] ∧
    Bybit.extractPhoneNumbers
        [⟨"str", some "8 (999) 123-45-67"⟩, ⟨"str", some "+7 999 123 45 67"⟩] =
      ["+79991234567"] ∧
    (Bybit.extractPhoneNumbers [⟨"str", some "+7 999 123 45 67"⟩]).Nodup ∧
    ("+79991234567" : String).length = 12 ∧
    ("+79991234567" : String).data.take 2 = ['+', '7'] ∧
    (("+79991234567" : String).data.drop 2).all Bybit.isDigitCh = true) :=
  ⟨by decide, c3_phone_extraction [⟨"str", some "+7 999 123 45 67"⟩]
    "+79991234567" (by decide)⟩

/-- C4 counterexample: the claim says status code 50 maps to the text
`"Completed"` in the cabinet normalizer as well, but the cabinet normalizer
produces the uppercase `"COMPLETED"` (and `"CANCELED"`, `"UNKNOWN"`), so the
two normalizers do not produce the same texts. -/

theorem c4_counterexample :
    Bybit.cabinetStatusText 50 = "COMPLETED" ∧
    Bybit.cabinetStatusText 50 ≠ "Completed" ∧
    Bybit.cabinetStatusText 40 ≠ "Cancelled" := by
  refine ⟨rfl, ?_, ?_⟩ <;> decide

/-- C4 (amended): status normalization is a pure deterministic function in
both normalizers; the user-trade (CSV export) normalizer maps 50 to
`"Completed"`, 40 to `"Cancelled"` and any code outside its own table to
`"Unknown"`, while the cabinet normalizer maps the same codes to its own
uppercase texts `"COMPLETED"`, `"CANCELED"` and, outside its own table
(which additionally knows code 0), `"UNKNOWN"`. -/

theorem c4_status_mapping (c : Int)
    (hc : c ∉ ([0, 5, 10, 20, 30, 40, 50, 60, 70, 80, 90, 100, 110] : List Int)) :
    Bybit.exportStatusText 50 = "Completed" ∧
    Bybit.exportStatusText 40 = "Cancelled" ∧
    Bybit.exportStatusText c = "Unknown" ∧
    Bybit.cabinetStatusText 50 = "COMPLETED" ∧
    Bybit.cabinetStatusText 40 = "CANCELED" ∧
    Bybit.cabinetStatusText c = "UNKNOWN" := by
  simp only [List.mem_cons, List.not_mem_nil, or_false] at hc
  push_neg at hc
  obtain ⟨h0, h5, h10, h20, h30, h40, h50, h60, h70, h80, h90, h100, h110⟩ := hc
  refine ⟨rfl, rfl, ?_, rfl, rfl, ?_⟩
  · simp only [Bybit.exportStatusText, h5, h10, h20, h30, h40, h50, h60, h70,
      h80, h90, h100, h110, if_false]
  · simp only [Bybit.cabinetStatusText, h0, h20, h30, h40, h50, if_false]

/-- Witness for `c4_status_mapping` at the concrete unmapped code 999. -/

theorem c4_status_mapping_witness :
    Bybit.exportStatusText 999 = "Unknown" ∧ Bybit.cabinetStatusText 999 = "UNKNOWN" := by
  have h := c4_status_mapping 999 (by decide)
  exact ⟨h.2.2.1, h.2.2.2.2.2⟩

/-- C5 counterexample: in the cabinet normalizer the stored `totalPrice` is
copied from the upstream `amount` field, not recomputed; with
`notifyTokenQuantity = "2"`, `amount = "100"`, `price = "30000"` the stored
row has `amount = 2`, `unitPrice = 30000` but `totalPrice = 100 ≠ 60000`. -/

theorem c5_counterexample :
    (Bybit.transformCabinetTransactionToDbFormat
      { id := some "A", side := 1, status := 50,
        notifyTokenQuantity := some "2", amount := some "100",
        price := some "30000" } 1 0).amount = some 2 ∧
    (Bybit.transformCabinetTransactionToDbFormat
      { id := some "A", side := 1, status := 50,
        notifyTokenQuantity := some "2", amount := some "100",
        price := some "30000" } 1 0).unitPrice = some 30000 ∧
    (Bybit.transformCabinetTransactionToDbFormat
      { id := some "A", side := 1, status := 50,
        notifyTokenQuantity := some "2", amount := some "100",
        price := some "30000" } 1 0).totalPrice = some 100 ∧
    (Bybit.transformCabinetTransactionToDbFormat
      { id := some "A", side := 1, status := 50,
        notifyTokenQuantity := some "2", amount := some "100",
        price := some "30000" } 1 0).totalPrice ≠
      Bybit.mulNum
        (Bybit.transformCabinetTransactionToDbFormat
          { id := some "A", side := 1, status := 50,
            notifyTokenQuantity := some "2", amount := some "100",
            price := some "30000" } 1 0).amount
        (Bybit.transformCabinetTransactionToDbFormat
          { id := some "A", side := 1, status := 50,
            notifyTokenQuantity := some "2", amount := some "100",
            price := some "30000" } 1 0).unitPrice := by
  have ha : (Bybit.transformCabinetTransactionToDbFormat
      { id := some "A", side := 1, status := 50,
        notifyTokenQuantity := some "2", amount := some "100",
        price := some "30000" } 1 0).amount = some 2 := parseFloat_two
  have hu : (Bybit.transformCabinetTransactionToDbFormat
      { id := some "A", side := 1, status := 50,
        notifyTokenQuantity := some "2", amount := some "100",
        price := some "30000" } 1 0).unitPrice = some 30000 :=
    parseFloat_thirtyThousand
  have ht : (Bybit.transformCabinetTransactionToDbFormat
      { id := some "A", side := 1, status := 50,
        notifyTokenQuantity := some "2", amount := some "100",
        price := some "30000" } 1 0).totalPrice = some 100 := parseFloat_hundred
  refine ⟨ha, hu, ht, ?_⟩
  rw [ha, hu, ht, Bybit.mulNum]
  intro h
  have := Option.some.inj h
  norm_num at this

/-- C5 (amended): in the user path the stored `totalPrice` is always the
product of the stored `amount` and `unitPrice` (in particular
amount = 1.5, unitPrice = 30000 gives totalPrice = 45000), but in the
cabinet path `totalPrice` is the parsed upstream `amount` field while the
stored `amount` is the upstream `notifyTokenQuantity`. -/

theorem c5_total_price (uid now cabId : Int) (tx : Bybit.RawTrade) :
    (Bybit.mkUserRow uid now tx).totalPrice =
      Bybit.mulNum (Bybit.mkUserRow uid now tx).amount
        (Bybit.mkUserRow uid now tx).unitPrice ∧
    (Bybit.mkUserRow uid now
        { tx with amount := some "1.5", price := some "30000" }).totalPrice =
      some 45000 ∧
    (Bybit.transformCabinetTransactionToDbFormat tx cabId now).totalPrice =
      Bybit.parseFloatOrZero tx.amount ∧
    (Bybit.transformCabinetTransactionToDbFormat tx cabId now).amount =
      Bybit.parseFloatOrZero tx.notifyTokenQuantity := by
  refine ⟨rfl, ?_, rfl, rfl⟩
  show Bybit.mulNum (Bybit.parseFloatOrZero (some "1.5"))
      (Bybit.parseFloatOrZero (some "30000")) = some 45000
  rw [parseFloat_onePointFive, parseFloat_thirtyThousand, Bybit.mulNum]
  norm_num

/-- C6 counterexample: in the first-revision user enrichment pass (the
cited `processUnprocessedTransactions`), a transaction whose chat fetch
returns no messages — or messages without phone numbers — is NOT marked
processed: no order-info row is created and the record stays pending, and
a throwing fetch is swallowed by `getChatMessages` (which returns `[]`)
rather than persisting an error on the record. -/

theorem c6_counterexample :
    Bybit.processUserRecordV1 [] = none ∧
    Bybit.processUserRecordV1 [⟨"str", some "привет"⟩] = none ∧
    Bybit.getChatMessages (Bybit.ChatFetchOutcome.thrown "boom") = [] := by
  refine ⟨rfl, by decide, rfl⟩

/-- C6 (amended): in the cabinet enrichment pass and the later-revision
user pass, a record whose fetched chat is empty (including a thrown fetch,
which `getChatMessages` converts to `[]`) or whose messages contain no
phone numbers is marked processed with an empty phone list; a record whose
processing throws keeps `processed` unchanged and gets the error message
persisted.  In the first-revision user pass, records with no messages or no
phones are instead skipped and stay pending. -/

theorem c6_enrichment (r : Bybit.CabTxRow) (r3 : Bybit.UserEnrichRecord)
    (chat : List Bybit.ChatMsg) (e : String)
    (hphones : Bybit.extractPhoneNumbers chat = [])
    (hr : r.extractedPhones = []) :
    ((Bybit.processCabinetRecord (Except.ok chat) r).processed = true ∧
     (Bybit.processCabinetRecord (Except.ok chat) r).extractedPhones = []) ∧
    ((Bybit.processCabinetRecord (Except.error e) r).processed = r.processed ∧
     (Bybit.processCabinetRecord (Except.error e) r).lastAttemptError = some e ∧
     (Bybit.processCabinetRecord (Except.error e) r).extractedPhones =
       r.extractedPhones) ∧
    ((Bybit.processUserRecordV3 (Except.ok chat) r3).1.processed = true ∧
     ((Bybit.processUserRecordV3 (Except.ok chat) r3).2 = some [] ∨
      (Bybit.processUserRecordV3 (Except.ok chat) r3).2 =
        some (Bybit.extractPhoneNumbers chat))) ∧
    ((Bybit.processUserRecordV3 (Except.error e) r3).1.processed = r3.processed ∧
     (Bybit.processUserRecordV3 (Except.error e) r3).1.lastAttemptError = some e ∧
     (Bybit.processUserRecordV3 (Except.error e) r3).2 = none) ∧
    (chat.isEmpty = true → Bybit.processUserRecordV1 chat = none) ∧
    Bybit.processUserRecordV1 chat = none := by
  refine ⟨⟨?_, ?_⟩, ⟨rfl, rfl, rfl⟩, ⟨?_, ?_⟩, ⟨rfl, rfl, rfl⟩, ?_, ?_⟩
  · rw [Bybit.processCabinetRecord]
    by_cases hc : chat.isEmpty
    · simp [hc]
    · simp [hc]
  · rw [Bybit.processCabinetRecord]
    by_cases hc : chat.isEmpty
    · simp [hc, hr]
    · simp [hc, hphones]
  · rw [Bybit.processUserRecordV3]
    by_cases hc : chat.isEmpty
    · simp [hc]
    · simp [hc]
  · rw [Bybit.processUserRecordV3]
    by_cases hc : chat.isEmpty
    · simp [hc]
    · simp [hc]
  · intro hc
    rw [Bybit.processUserRecordV1]
    simp [hc]
  · rw [Bybit.processUserRecordV1]
    by_cases hc : chat.isEmpty
    · simp [hc]
    · simp [hc, hphones]

/-- Witness for `c6_enrichment` on a concrete record and empty chat. -/

theorem c6_enrichment_witness :
    Bybit.extractPhoneNumbers ([] : List Bybit.ChatMsg) = [] ∧
    Bybit.fixtureCab1Row.extractedPhones = [] ∧
    (Bybit.processCabinetRecord (Except.ok []) Bybit.fixtureCab1Row).processed =
      true ∧
    (Bybit.processCabinetRecord (Except.error "boom")
      Bybit.fixtureCab1Row).lastAttemptError = some "boom" :=
  ⟨by decide, by decide,
    ((c6_enrichment Bybit.fixtureCab1Row ⟨false, none⟩ [] "boom" (by decide)
      (by decide)).1).1,
    (((c6_enrichment Bybit.fixtureCab1Row ⟨false, none⟩ [] "boom" (by decide)
      (by decide)).2).1).2.1⟩

/-- C7 counterexample: on a fresh (unsynchronized) parser, the trade-page
path (`makeRequest`) does fail fast with the clock error, but the
chat-message path (`p2pRequest`) does not: even when its self-initiated
clock sync fails on transport, it still attempts the network call and
returns its result. -/

theorem c7_counterexample :
    Bybit.makeRequest Bybit.initialParserState (Bybit.NetOutcome.ok "resp") =
      Except.error Bybit.ApiError.clockNotSynced ∧
    (Bybit.p2pRequest Bybit.initialParserState
        (Bybit.TimeResponse.transportError "down") 0
        (Bybit.NetOutcome.ok "resp")).1 = Except.ok "resp" := by
  refine ⟨rfl, rfl⟩

/-- C7 (amended): `makeRequest` (the trade-page fetch) fails fast with the
distinct clock-not-synced error whenever the clock is unsynchronized and
never returns it otherwise; `p2pRequest` (the chat-message fetch) instead
synchronizes the clock itself when needed and proceeds with the call
regardless, never producing a clock-not-synced error. -/

theorem c7_clock_contract (st : Bybit.ParserState) (net : Bybit.NetOutcome)
    (timeResp : Bybit.TimeResponse) (localTime : Int)
    (hns : st.timeSyncComplete = false) :
    Bybit.makeRequest st net = Except.error Bybit.ApiError.clockNotSynced ∧
    (∀ st2 : Bybit.ParserState, st2.timeSyncComplete = true →
      Bybit.makeRequest st2 net ≠ Except.error Bybit.ApiError.clockNotSynced) ∧
    (Bybit.p2pRequest st timeResp localTime net).1 ≠
      Except.error Bybit.ApiError.clockNotSynced := by
  refine ⟨?_, ?_, ?_⟩
  · rw [Bybit.makeRequest.eq_def, hns]
    rfl
  · intro st2 h2
    rw [Bybit.makeRequest.eq_def, h2]
    cases net <;> simp
  · rw [Bybit.p2pRequest.eq_def, hns]
    simp only [Bool.not_false, if_true]
    cases timeResp <;> cases net <;> simp [Bybit.syncTime]

/-- Witness for `c7_clock_contract` on a fresh parser. -/

theorem c7_clock_contract_witness :
    Bybit.makeRequest Bybit.initialParserState (Bybit.NetOutcome.ok "d") =
      Except.error Bybit.ApiError.clockNotSynced ∧
    (∀ st2 : Bybit.ParserState, st2.timeSyncComplete = true →
      Bybit.makeRequest st2 (Bybit.NetOutcome.ok "d") ≠
        Except.error Bybit.ApiError.clockNotSynced) ∧
    (Bybit.p2pRequest Bybit.initialParserState Bybit.TimeResponse.missingTimeNano 0
      (Bybit.NetOutcome.ok "d")).1 ≠ Except.error Bybit.ApiError.clockNotSynced :=
  c7_clock_contract Bybit.initialParserState (Bybit.NetOutcome.ok "d")
    Bybit.TimeResponse.missingTimeNano 0 (by decide)

/-- C8 counterexample: the cabinet sync does not retain Buy-side records —
a completed Buy trade (side 0, status 50) is filtered out — and although
the cabinet normalizer maps status 30 to "COMPLETED", a Sell trade with
status 30 is also filtered out (only status 50 survives the filter). -/

theorem c8_counterexample :
    Bybit.cabFilter [{ id := some "B", side := 0, status := 50 }] = [] ∧
    Bybit.cabFilter [{ id := some "S", side := 1, status := 30 }] = [] ∧
    Bybit.cabinetStatusText 30 = "COMPLETED" := by
  refine ⟨by decide, by decide, rfl⟩

/-- C8 (amended): the user sync persists a new row only for trades with
side 1 (Sell) and status 50; the cabinet sync likewise retains only
side-1, status-50 trades (its filter composes to exactly that predicate),
tagging each retained record with its side, even though its status table
would also map 30 to "COMPLETED". -/

theorem c8_sell_completed_filter (uid now cabId : Int)
    (trades txs : List Bybit.RawTrade) (store : List Bybit.UserTxRow)
    (r : Bybit.UserTxRow) (tx : Bybit.RawTrade) :
    (r ∈ (Bybit.userSaveLoop uid now trades store).1 →
      r ∈ store ∨ ∃ t ∈ trades, t.side = 1 ∧ t.status = 50 ∧
        r = Bybit.mkUserRow uid now t) ∧
    (tx ∈ Bybit.cabFilter txs → tx.side = 1 ∧ tx.status = 50) ∧
    ((Bybit.transformCabinetTransactionToDbFormat tx cabId now).type =
      if tx.side = 0 then "BUY" else "SELL") ∧
    Bybit.cabinetStatusText 30 = "COMPLETED" := by
  refine ⟨Bybit.userSaveLoop_new_rows uid now trades store r, ?_, rfl, rfl⟩
  intro h
  rw [Bybit.cabFilter] at h
  have h1 := List.of_mem_filter h
  have h2 := List.of_mem_filter (List.mem_of_mem_filter h)
  simp only [beq_iff_eq] at h1 h2
  exact ⟨h1, h2⟩

/-- Witness for `c8_sell_completed_filter` on a concrete retained trade. -/

theorem c8_sell_completed_filter_witness :
    ({ id := some "S", side := 1, status := 50 } : Bybit.RawTrade).side = 1 ∧
    ({ id := some "S", side := 1, status := 50 } : Bybit.RawTrade).status = 50 :=
  (c8_sell_completed_filter 1 0 1 [] [{ id := some "S", side := 1, status := 50 }]
    [] { orderNo := "S", counterparty := "Unknown", status := "Completed",
         userId := 1, amount := none, asset := "USDT", dateTime := 0,
         totalPrice := none, type := "Sell", unitPrice := none }
    { id := some "S", side := 1, status := 50 }).2.1 (by decide)

/-- C9 counterexample: the three status forms written by the sync are the
Russian strings of the source ("Успешно. Сохранено N новых транзакций",
"Новых транзакций не найдено", "Ошибка: ..."), not the English forms the
claim quotes: a concrete successful run writes
"Успешно. Сохранено 1 новых транзакций", which differs from
"Success: saved 1 new transactions". -/

theorem c9_counterexample :
    (Bybit.syncUserTransactions 1 0 (some "k") (some "s")
      (Bybit.SyncBody.fetched
        (fun p => if p = 1 then
            Bybit.PageResult.success [{ id := some "T", side := 1, status := 50 }]
          else Bybit.PageResult.failure "e")
        (fun _ => Bybit.PageResult.failure "e")) []).2 =
      ["Успешно. Сохранено 1 новых транзакций"] ∧
    ("Успешно. Сохранено 1 новых транзакций" : String) ≠
      "Success: saved 1 new transactions" := by
  refine ⟨by decide, by decide⟩

/-- C9 (amended): for every credentialed per-account sync attempt, exactly
one status is written back, and it is one of the three source forms: the
outer-catch error form `"Ошибка: <message>"` (store untouched), the no-data
form `"Новых транзакций не найдено"` (store untouched), or the success form
`"Успешно. Сохранено N новых транзакций"` with N exactly the number of rows
this run inserted. -/

theorem c9_sync_status_write (uid now : Int) (token secret : Option String)
    (body : Bybit.SyncBody) (store : List Bybit.UserTxRow)
    (ht : Bybit.truthy token = true) (hs : Bybit.truthy secret = true) :
    (Bybit.syncUserTransactions uid now token secret body store).2.length = 1 ∧
    ((∃ e, (Bybit.syncUserTransactions uid now token secret body store).2 =
        [Bybit.errorStatus e] ∧
        (Bybit.syncUserTransactions uid now token secret body store).1 = store) ∨
     ((Bybit.syncUserTransactions uid now token secret body store).2 =
        [Bybit.noNewStatus] ∧
        (Bybit.syncUserTransactions uid now token secret body store).1 = store) ∨
     (∃ n, (Bybit.syncUserTransactions uid now token secret body store).2 =
        [Bybit.successStatus n] ∧
        (Bybit.syncUserTransactions uid now token secret body store).1.length =
          store.length + n)) := by
  rw [Bybit.syncUserTransactions.eq_def]
  simp only [ht, hs, Bool.and_self, Bool.not_true, Bool.false_eq_true, if_false]
  cases body with
  | thrown e => exact ⟨rfl, Or.inl ⟨e, rfl, rfl⟩⟩
  | fetched f1 f2 =>
    by_cases hhs : (Bybit.runFallback f1 f2).hasSuccess
    · simp only [hhs, Bool.not_true, Bool.false_eq_true, if_false]
      by_cases hne : (Bybit.runFallback f1 f2).transactions.isEmpty
      · simp only [hne, if_true]
        exact ⟨by trivial, Or.inr (Or.inl ⟨by trivial, by trivial⟩)⟩
      · simp only [hne, Bool.false_eq_true, if_false]
        refine ⟨rfl, Or.inr (Or.inr
          ⟨(Bybit.userSaveLoop uid now (Bybit.runFallback f1 f2).transactions store).2,
            rfl, ?_⟩)⟩
        exact Bybit.userSaveLoop_length uid now (Bybit.runFallback f1 f2).transactions store
    · simp only [Bool.not_eq_true] at hhs
      simp only [hhs, Bool.not_false, if_true]
      exact ⟨by trivial, Or.inr (Or.inl ⟨by trivial, by trivial⟩)⟩

/-- Witness for `c9_sync_status_write` on a concrete thrown attempt. -/

theorem c9_sync_status_write_witness :
    (Bybit.syncUserTransactions 1 0 (some "k") (some "s")
      (Bybit.SyncBody.thrown "boom") []).2.length = 1 ∧
    ((∃ e, (Bybit.syncUserTransactions 1 0 (some "k") (some "s")
        (Bybit.SyncBody.thrown "boom") []).2 = [Bybit.errorStatus e] ∧
        (Bybit.syncUserTransactions 1 0 (some "k") (some "s")
          (Bybit.SyncBody.thrown "boom") []).1 = []) ∨
     ((Bybit.syncUserTransactions 1 0 (some "k") (some "s")
        (Bybit.SyncBody.thrown "boom") []).2 = [Bybit.noNewStatus] ∧
        (Bybit.syncUserTransactions 1 0 (some "k") (some "s")
          (Bybit.SyncBody.thrown "boom") []).1 = []) ∨
     (∃ n, (Bybit.syncUserTransactions 1 0 (some "k") (some "s")
        (Bybit.SyncBody.thrown "boom") []).2 = [Bybit.successStatus n] ∧
        (Bybit.syncUserTransactions 1 0 (some "k") (some "s")
          (Bybit.SyncBody.thrown "boom") []).1.length =
            ([] : List Bybit.UserTxRow).length + n)) :=
  c9_sync_status_write 1 0 (some "k") (some "s") (Bybit.SyncBody.thrown "boom") []
    (by decide) (by decide)

/-- C10: `syncTime` never throws — it returns normally for every response
outcome — and on a not-yet-synchronized parser (its creation state:
flag false, offset 0) both failure modes (transport error, or a response
lacking `timeNano`) leave `timeSyncComplete` false and `timeOffset` 0, so
the failure is observable only through the flag. -/

theorem c10_syncTime_total (st : Bybit.ParserState) (localTime : Int) (msg : String)
    (hF : st.timeSyncComplete = false) (hO : st.timeOffset = 0) :
    (∀ (st2 : Bybit.ParserState) (resp : Bybit.TimeResponse),
      ∃ st', Bybit.syncTime resp localTime st2 = Except.ok st') ∧
    Bybit.syncTime (Bybit.TimeResponse.transportError msg) localTime st =
      Except.ok ⟨0, false⟩ ∧
    Bybit.syncTime Bybit.TimeResponse.missingTimeNano localTime st =
      Except.ok ⟨0, false⟩ := by
  refine ⟨fun st2 resp => ?_, ?_, ?_⟩
  · cases resp <;> exact ⟨_, rfl⟩
  · rw [Bybit.syncTime]
    cases st with
    | mk o f => simp at hF; subst hF; rfl
  · rw [Bybit.syncTime]
    cases st with
    | mk o f => simp at hF hO; subst hF; subst hO; rfl

/-- Witness for `c10_syncTime_total` on a fresh parser. -/

theorem c10_syncTime_total_witness :
    (∀ (st2 : Bybit.ParserState) (resp : Bybit.TimeResponse),
      ∃ st', Bybit.syncTime resp 0 st2 = Except.ok st') ∧
    Bybit.syncTime (Bybit.TimeResponse.transportError "down") 0
      Bybit.initialParserState = Except.ok ⟨0, false⟩ ∧
    Bybit.syncTime Bybit.TimeResponse.missingTimeNano 0
      Bybit.initialParserState = Except.ok ⟨0, false⟩ :=
  c10_syncTime_total Bybit.initialParserState 0 "down" (by decide) (by decide)
